import Mathlib

/- Verification of the value-generation and configuration core of the CSV
test-data generator (src/index.js). JavaScript numbers are modelled as
rationals, the `Math.random()` stream as an explicit function supplying one
rational draw per index, and CSV records as association lists from column
names to string values. Cell values produced by the generator are modelled
by `JsValue`, which also covers the JavaScript `NaN` and `undefined` values
that the untyped source can place in a column. -/

/-- A JavaScript value that can appear in a generated cell or in a
configured value list: a string, a (finite) number, `NaN`, or `undefined`. -/
inductive JsValue where
  | str : String → JsValue
  | num : ℚ → JsValue
  | nan : JsValue
  | undef : JsValue
deriving DecidableEq

/-- Models `getRandomNumber(min, max)` (src/index.js:8-10):
`Math.floor(Math.random() * (max - min + 1)) + min`, with the random draw
`r` passed explicitly. -/
def getRandomNumber (min max r : ℚ) : ℚ :=
  (⌊r * (max - min + 1)⌋ : ℤ) + min

/-- The alphanumeric alphabet used by `getRandomString` (src/index.js:14). -/
def chars : String := "ABCDEFGHIJKLMNOPQRSTUVWXYZabcdefghijklmnopqrstuvwxyz0123456789"

/-- Models `s.charAt(idx)` as the list of characters it contributes to a
string concatenation: a singleton for an in-range index, nothing otherwise
(JavaScript `charAt` returns the empty string out of range). -/
def jsCharAtList (s : String) (idx : ℤ) : List Char :=
  if 0 ≤ idx ∧ idx.toNat < s.length then [s.toList.getD idx.toNat 'A'] else []

/-- The character list accumulated by the loop of `getRandomString`
(src/index.js:16-18): iteration `n` appends
`chars.charAt(Math.floor(rng n * chars.length))`. -/
def randomChars (rng : ℕ → ℚ) : ℕ → List Char
  | 0 => []
  | n + 1 => randomChars rng n ++ jsCharAtList chars ⌊rng n * (chars.length : ℚ)⌋

/-- Models `getRandomString(length)` (src/index.js:13-20). -/
def getRandomString (length : ℕ) (rng : ℕ → ℚ) : String :=
  String.mk (randomChars rng length)

/-- Models `getRandomStringWithPrefix(prefix, length)` (src/index.js:23-25):
the literal prefix concatenated with a random string. -/
def getRandomStringWithPref (p : String) (length : ℕ) (rng : ℕ → ℚ) : String :=
  p ++ getRandomString length rng

/-- Models JavaScript array indexing `list[idx]` with an integer index:
the element when the index is in range, `undefined` otherwise. -/
def jsIndexInt (list : List JsValue) (idx : ℤ) : JsValue :=
  if 0 ≤ idx ∧ idx.toNat < list.length then list.getD idx.toNat JsValue.undef
  else JsValue.undef

/-- Models `getRandomFromList(list)` (src/index.js:28-30):
`list[Math.floor(Math.random() * list.length)]`. -/
def getRandomFromList (list : List JsValue) (r : ℚ) : JsValue :=
  jsIndexInt list ⌊r * (list.length : ℚ)⌋

/-- Models `record[header]` on a parsed CSV record: `none` stands for the
JavaScript `undefined` of a missing key. -/
def jsGet (record : List (String × String)) (header : String) : Option String :=
  (record.find? (fun p => p.1 == header)).map Prod.snd

/-- First-occurrence deduplication with an accumulator of already-seen
elements; models the insertion-order semantics of `new Set(values)`. -/
def setDedupAux {α : Type} [DecidableEq α] (seen : List α) : List α → List α
  | [] => []
  | a :: rest =>
      if a ∈ seen then setDedupAux seen rest
      else a :: setDedupAux (a :: seen) rest

/-- Models `[...new Set(values)]`: duplicates removed, first occurrences
kept in order. -/
def setDedup {α : Type} [DecidableEq α] (l : List α) : List α :=
  setDedupAux [] l

/-- Models `getUniqueValuesFromColumn(records, header)` (src/index.js:33-37):
map each record to its value for the column, deduplicate, then filter out
`undefined`/`null`/empty-string entries. The final `reduceOption` unwraps
the surviving values, which are all present strings. -/
def getUniqueValuesFromColumn (records : List (List (String × String)))
    (header : String) : List String :=
  let values := records.map (fun record => jsGet record header)
  ((setDedup values).filter (fun v => !(v == none) && !(v == some ""))).reduceOption

/-- The spec's description of the value-pool extractor, for comparison with
`getUniqueValuesFromColumn`: remove the unusable (missing or empty-string)
entries from the column's value sequence, then remove duplicates keeping
first occurrences in order. -/
def extractPoolSpec (records : List (List (String × String)))
    (header : String) : List String :=
  setDedup (((records.map (fun record => jsGet record header)).reduceOption).filter
    (fun s => !(s == "")))

/-- Numeric value of a list of decimal digit characters. -/
def digitsVal (l : List Char) : ℕ :=
  l.foldl (fun acc c => acc * 10 + (c.toNat - 48)) 0

/-- Models the JavaScript `String.prototype.trim`: whitespace removed from
both ends. -/
def jsTrim (s : String) : String :=
  String.mk (((s.toList.dropWhile Char.isWhitespace).reverse.dropWhile
    Char.isWhitespace).reverse)

/-- Models the JavaScript `Number(s)` coercion on the string forms arising
in this development: the empty (trimmed) string coerces to `0`, an
optionally signed decimal-integer literal to its value, and anything else
to `NaN`, encoded as `none`. -/
def jsNumber (s : String) : Option ℚ :=
  match (jsTrim s).toList with
  | [] => some 0
  | '-' :: rest =>
      if !rest.isEmpty && rest.all Char.isDigit then some (-(digitsVal rest : ℚ)) else none
  | '+' :: rest =>
      if !rest.isEmpty && rest.all Char.isDigit then some ((digitsVal rest : ℚ)) else none
  | l => if l.all Char.isDigit then some ((digitsVal l : ℚ)) else none

/-- Models `input.split(',')` character by character; like the JavaScript
original it always returns at least one (possibly empty) piece. -/
def splitCommasAux : List Char → List Char → List String
  | [], acc => [String.mk acc.reverse]
  | c :: rest, acc =>
      if c = ',' then String.mk acc.reverse :: splitCommasAux rest []
      else splitCommasAux rest (c :: acc)

/-- Models `input.split(',')`. -/
def splitCommas (s : String) : List String :=
  splitCommasAux s.toList []

/-- Models the custom numeric-list prompt filter
`input.split(',').map(Number)` (src/index.js:452, 466): entries that do not
parse become `NaN`. -/
def customNumericList (input : String) : List JsValue :=
  (splitCommas input).map (fun s =>
    match jsNumber s with
    | some q => JsValue.num q
    | none => JsValue.nan)

/-- Models the custom string-list prompt filter
`input.split(',').map(v => v.trim())` (src/index.js:481, 515, 529). -/
def customAlphaList (input : String) : List JsValue :=
  ((splitCommas input).map jsTrim).map JsValue.str

/-- The strategy part of a `columnConfig` object, one constructor per
`type` tag of src/index.js (`'1'`..`'7'`); `unknown` models an object whose
tag matches no case of the generation switch (which has no default). -/
inductive GenCfg where
  | numericRange : ℚ → ℚ → GenCfg
  | numericFromList : List JsValue → GenCfg
  | alphaFromList : List JsValue → GenCfg
  | randomString : ℕ → GenCfg
  | sequentialNumeric : ℚ → ℚ → GenCfg
  | cyclicList : List JsValue → GenCfg
  | pfxRandomString : String → ℕ → GenCfg
  | unknown : String → GenCfg
deriving DecidableEq

/-- A `columnConfig` object: the column name plus its strategy data. -/
structure ColumnConfig where
  header : String
  cfg : GenCfg
deriving DecidableEq

/-- The value list carried by a list-based strategy, if any. -/
def listOf : GenCfg → Option (List JsValue)
  | GenCfg.numericFromList l => some l
  | GenCfg.alphaFromList l => some l
  | GenCfg.cyclicList l => some l
  | _ => none

/-- The prompt answers consumed by `configureColumn`, gathered into one
record: the source-versus-custom decision, the raw custom list inputs, and
the scalar parameters with their prompt defaults supplied by the caller. -/
structure Answers where
  useSource : Bool
  minVal : ℚ
  maxVal : ℚ
  numericList : String
  alphaList : String
  strLength : ℕ
  pfx : String
  start : ℚ
  step : ℚ
deriving DecidableEq

/-- Models `configureColumn(header, records)` (src/index.js:373-590) as a
pure function of the prompt answers: the chosen generation type selects the
strategy, list-based strategies resolve their list from the source column's
unique values when requested and non-empty, falling back to the
comma-separated custom input otherwise, and an unrecognized type leaves the
config with only its tag (no parameters), like the source switch. -/
def configureColumn (header : String) (records : List (List (String × String)))
    (genType : String) (ans : Answers) : ColumnConfig :=
  let uniqueValues := getUniqueValuesFromColumn records header
  ⟨header,
    match genType with
    | "1" => GenCfg.numericRange ans.minVal ans.maxVal
    | "2" =>
        if ans.useSource then
          let numericValues := (uniqueValues.map jsNumber).reduceOption
          if numericValues.length = 0 then
            GenCfg.numericFromList (customNumericList ans.numericList)
          else GenCfg.numericFromList (numericValues.map JsValue.num)
        else GenCfg.numericFromList (customNumericList ans.numericList)
    | "3-source" =>
        if uniqueValues.length = 0 then GenCfg.alphaFromList (customAlphaList ans.alphaList)
        else GenCfg.alphaFromList (uniqueValues.map JsValue.str)
    | "3" =>
        if ans.useSource then
          if uniqueValues.length = 0 then GenCfg.alphaFromList (customAlphaList ans.alphaList)
          else GenCfg.alphaFromList (uniqueValues.map JsValue.str)
        else GenCfg.alphaFromList (customAlphaList ans.alphaList)
    | "6" =>
        if ans.useSource then
          if uniqueValues.length = 0 then GenCfg.cyclicList (customAlphaList ans.alphaList)
          else GenCfg.cyclicList (uniqueValues.map JsValue.str)
        else GenCfg.cyclicList (customAlphaList ans.alphaList)
    | "4" => GenCfg.randomString ans.strLength
    | "7" => GenCfg.pfxRandomString ans.pfx ans.strLength
    | "5" => GenCfg.sequentialNumeric ans.start ans.step
    | other => GenCfg.unknown other⟩

/-- One arm of the generation switch (src/index.js:282-302): the value
assigned to `record[config.header]` for row `i`, or `none` when the type
tag matches no case and the switch assigns nothing. -/
def generateCell (cfg : GenCfg) (i : ℕ) (rng : ℕ → ℚ) : Option JsValue :=
  match cfg with
  | GenCfg.numericRange lo hi => some (JsValue.num (getRandomNumber lo hi (rng 0)))
  | GenCfg.numericFromList list => some (getRandomFromList list (rng 0))
  | GenCfg.alphaFromList list => some (getRandomFromList list (rng 0))
  | GenCfg.randomString len => some (JsValue.str (getRandomString len rng))
  | GenCfg.sequentialNumeric start step => some (JsValue.num (start + (i : ℚ) * step))
  | GenCfg.cyclicList list =>
      some (if list.length = 0 then JsValue.undef
            else list.getD (i % list.length) JsValue.undef)
  | GenCfg.pfxRandomString p len => some (JsValue.str (getRandomStringWithPref p len rng))
  | GenCfg.unknown _ => none

/-- JavaScript object assignment `record[k] = v` on a record kept as an
association list in key-insertion order. -/
def objSet (rec : List (String × JsValue)) (k : String) (v : JsValue) :
    List (String × JsValue) :=
  if rec.any (fun p => p.1 == k) then rec.map (fun p => if p.1 == k then (k, v) else p)
  else rec ++ [(k, v)]

/-- The inner loop of the generation pass (src/index.js:281-303): walk the
column configurations in order, assigning each generated cell into the
record; a config whose tag matches no switch case assigns nothing. The
random stream is indexed by the column's position. -/
def genRowAux (acc : List (String × JsValue)) (configs : List ColumnConfig)
    (i : ℕ) (rng : ℕ → ℕ → ℚ) : List (String × JsValue) :=
  match configs with
  | [] => acc
  | c :: rest =>
      match generateCell c.cfg i (rng 0) with
      | none => genRowAux acc rest i (fun j => rng (j + 1))
      | some v => genRowAux (objSet acc c.header v) rest i (fun j => rng (j + 1))

/-- One record of the output (src/index.js:279-305), starting from `{}`. -/
def generateRecord (configs : List ColumnConfig) (i : ℕ) (rng : ℕ → ℕ → ℚ) :
    List (String × JsValue) :=
  genRowAux [] configs i rng

/-- The generation pass of `main` (src/index.js:276-306): the loop
`for (let i = 0; i < numRecords; i++)` pushes one record per iteration, so
a non-positive count yields an empty output array. The random stream is
indexed by row then column. -/
def generateTestData (configs : List ColumnConfig) (numRecords : ℤ)
    (rngs : ℕ → ℕ → ℕ → ℚ) : List (List (String × JsValue)) :=
  (List.range numRecords.toNat).map (fun i => generateRecord configs i (rngs i))

/-- For a positive integer factor, the floor of `r * k` with `0 ≤ r < 1`
lies between `0` and `k - 1`. -/
lemma floor_unit_mul_pos (k : ℤ) (r : ℚ) (hk : 0 < k) (h0 : 0 ≤ r) (h1 : r < 1) :
    0 ≤ ⌊r * (k : ℚ)⌋ ∧ ⌊r * (k : ℚ)⌋ ≤ k - 1 := by
  have hkq : (0 : ℚ) < (k : ℚ) := by exact_mod_cast hk
  constructor
  · exact Int.floor_nonneg.mpr (mul_nonneg h0 hkq.le)
  · have hlt : r * (k : ℚ) < (k : ℚ) := by nlinarith
    have : ⌊r * (k : ℚ)⌋ < k := Int.floor_lt.mpr hlt
    omega

/-- For a non-positive integer factor, the floor of `r * k` with
`0 ≤ r < 1` lies between `k` and `0`. -/
lemma floor_unit_mul_nonpos (k : ℤ) (r : ℚ) (hk : k ≤ 0) (h0 : 0 ≤ r) (h1 : r < 1) :
    k ≤ ⌊r * (k : ℚ)⌋ ∧ ⌊r * (k : ℚ)⌋ ≤ 0 := by
  have hkq : (k : ℚ) ≤ 0 := by exact_mod_cast hk
  constructor
  · apply Int.le_floor.mpr
    nlinarith
  · have h : r * (k : ℚ) ≤ 0 := by nlinarith
    have := Int.floor_mono h
    simpa using this

/-- C1 (amended): for a NumericRange whose width `max - min` is an integer
(in particular, integer bounds) with `min ≤ max`, and any draw
`0 ≤ r < 1`, the generated value `⌊r * (max - min + 1)⌋ + min` lies in the
inclusive interval `[min, max]`; and whenever `min = max` — integral width
or not — the generated value is exactly that constant. -/
theorem c1_numericRange_bounds (min max r : ℚ) (h0 : 0 ≤ r) (h1 : r < 1) :
    ((∃ n : ℤ, max - min = (n : ℚ)) → min ≤ max →
      min ≤ getRandomNumber min max r ∧ getRandomNumber min max r ≤ max)
    ∧ (min = max → getRandomNumber min max r = min) := by
  constructor
  · rintro ⟨n, hn⟩ hle
    have hn0 : 0 < n + 1 := by
      have : (0 : ℚ) ≤ (n : ℚ) := by rw [← hn]; linarith
      have : (0 : ℤ) ≤ n := by exact_mod_cast this
      omega
    have h2 : max - min + 1 = ((n + 1 : ℤ) : ℚ) := by push_cast; linarith
    have hb := floor_unit_mul_pos (n + 1) r hn0 h0 h1
    unfold getRandomNumber
    rw [h2]
    set x := ⌊r * ((n + 1 : ℤ) : ℚ)⌋ with hxdef
    have hx0 : (0 : ℚ) ≤ (x : ℚ) := by exact_mod_cast hb.1
    have hxn : x ≤ n := by omega
    have hxq : (x : ℚ) ≤ (n : ℚ) := by exact_mod_cast hxn
    constructor
    · linarith
    · linarith
  · intro heq
    unfold getRandomNumber
    rw [heq]
    have h2 : max - max + 1 = (1 : ℚ) := by ring
    rw [h2, mul_one]
    have : ⌊r⌋ = 0 := by
      rw [Int.floor_eq_iff]
      constructor
      · simpa using h0
      · simpa using h1
    rw [this]
    simp

/-- C1 counterexample: the claim quantifies over every NumericRange config
with `min ≤ max`, but the bounds are JavaScript numbers and need not be
integers. With `min = 0`, `max = 1/2` and draw `r = 3/4`, the generated
value is `⌊(3/4) * (3/2)⌋ + 0 = 1`, which is outside `[0, 1/2]`. -/
theorem c1_counterexample :
    ((0 : ℚ) ≤ 3/4 ∧ (3/4 : ℚ) < 1 ∧ (0 : ℚ) ≤ 1/2)
    ∧ getRandomNumber 0 (1/2) (3/4) = 1
    ∧ (1/2 : ℚ) < getRandomNumber 0 (1/2) (3/4) := by
  have h : getRandomNumber 0 (1/2) (3/4) = 1 := by
    unfold getRandomNumber
    have h9 : (3/4 : ℚ) * (1/2 - 0 + 1) = 9/8 := by norm_num
    rw [h9]
    have : ⌊(9/8 : ℚ)⌋ = 1 := by
      rw [Int.floor_eq_iff]
      norm_num
    rw [this]
    norm_num
  refine ⟨⟨by norm_num, by norm_num, by norm_num⟩, h, ?_⟩
  rw [h]
  norm_num

theorem c1_witness :
    (3 : ℚ) ≤ getRandomNumber 3 5 (1/2) ∧ getRandomNumber 3 5 (1/2) ≤ 5 :=
  (c1_numericRange_bounds 3 5 (1/2) (by norm_num) (by norm_num)).1
    ⟨2, by norm_num⟩ (by norm_num)

/-- C3: a SequentialNumeric config generates exactly `start + i * step` at
row `i`, for every random stream; the sequence is strictly increasing when
`step > 0`, strictly decreasing when `step < 0`, and constant when
`step = 0`. -/
theorem c3_sequentialNumeric (start step : ℚ) (i j : ℕ) (rng : ℕ → ℚ) :
    generateCell (GenCfg.sequentialNumeric start step) i rng
      = some (JsValue.num (start + (i : ℚ) * step))
    ∧ (0 < step → i < j → start + (i : ℚ) * step < start + (j : ℚ) * step)
    ∧ (step < 0 → i < j → start + (j : ℚ) * step < start + (i : ℚ) * step)
    ∧ (step = 0 → start + (i : ℚ) * step = start) := by
  refine ⟨rfl, ?_, ?_, ?_⟩
  · intro hs hij
    have hq : (i : ℚ) < (j : ℚ) := by exact_mod_cast hij
    nlinarith
  · intro hs hij
    have hq : (i : ℚ) < (j : ℚ) := by exact_mod_cast hij
    nlinarith
  · intro hs
    rw [hs]
    ring

theorem c3_witness :
    (1 : ℚ) + ((0 : ℕ) : ℚ) * 1 < 1 + ((1 : ℕ) : ℚ) * 1 :=
  (c3_sequentialNumeric 1 1 0 1 (fun _ => 0)).2.1 (by norm_num) (by norm_num)

/-- C9 (amended): the generation loop performs no rowCount validation: it
always produces exactly `max 0 numRecords` records, so a non-positive
requested count yields an empty output table rather than an
`InvalidRowCount` failure, and a positive count yields exactly that many
records. -/
theorem c9_rowCount (configs : List ColumnConfig) (numRecords : ℤ)
    (rngs : ℕ → ℕ → ℕ → ℚ) :
    (generateTestData configs numRecords rngs).length = numRecords.toNat
    ∧ (numRecords ≤ 0 → generateTestData configs numRecords rngs = []) := by
  constructor
  · simp [generateTestData]
  · intro h
    have h0 : numRecords.toNat = 0 := by omega
    simp [generateTestData, h0]

/-- C9 counterexample: a request for `0` rows returns an (empty) output
table instead of failing with `InvalidRowCount`. -/
theorem c9_counterexample :
    generateTestData [⟨"a", GenCfg.sequentialNumeric 1 1⟩] 0 (fun _ _ _ => 0) = [] :=
  rfl

theorem c9_witness :
    generateTestData [] (-1) (fun _ _ _ => 0) = [] :=
  (c9_rowCount [] (-1) (fun _ _ _ => 0)).2 (by norm_num)

/-- C10 (amended): the generation switch has no default case, so a config
whose strategy tag matches no recognized variant assigns nothing: the
column is silently omitted from every record while the remaining columns
are generated, and synthesis runs to completion producing the full number
of records — there is no fail-fast error. -/
theorem c10_malformed_config (tag hdr : String) (rest : List ColumnConfig) (i : ℕ)
    (rng : ℕ → ℕ → ℚ) (numRecords : ℤ) (rngs : ℕ → ℕ → ℕ → ℚ) :
    generateCell (GenCfg.unknown tag) i (rng 0) = none
    ∧ generateRecord (⟨hdr, GenCfg.unknown tag⟩ :: rest) i rng
        = generateRecord rest i (fun j => rng (j + 1))
    ∧ (generateTestData (⟨hdr, GenCfg.unknown tag⟩ :: rest) numRecords rngs).length
        = numRecords.toNat := by
  refine ⟨rfl, rfl, ?_⟩
  simp [generateTestData]

/-- C10 counterexample: a malformed config (tag `"9"`) reaches the
synthesizer together with a well-formed sequential column; the run
completes and emits the requested two records, each omitting the malformed
column — no fail-fast error occurs. -/
theorem c10_counterexample :
    generateTestData [⟨"a", GenCfg.unknown "9"⟩, ⟨"b", GenCfg.sequentialNumeric 1 1⟩] 2
      (fun _ _ _ => 0)
    = [[("b", JsValue.num 1)], [("b", JsValue.num 2)]] := by
  have h2 : (2 : ℤ).toNat = 2 := rfl
  simp only [generateTestData, h2, List.range_succ, List.range_zero, List.nil_append,
    List.cons_append, List.map_cons, List.map_nil, generateRecord, genRowAux,
    generateCell, objSet]
  norm_num

/-- C8 (amended): the builder performs no `min ≤ max` validation: for the
NumericRange choice it always constructs the config from the entered
bounds, and a config with `min > max` (integral gap) reaches generation,
where `getRandomNumber` returns a value in `[max + 1, min]` instead of
failing with `InvalidRange`. -/
theorem c8_invalidRange (min max r : ℚ) (hgap : ∃ n : ℤ, min - max = (n : ℚ))
    (hlt : max < min) (h0 : 0 ≤ r) (h1 : r < 1) :
    (max + 1 ≤ getRandomNumber min max r ∧ getRandomNumber min max r ≤ min)
    ∧ configureColumn "c" [] "1" ⟨true, min, max, "", "", 10, "ID-", 1, 1⟩
        = ⟨"c", GenCfg.numericRange min max⟩ := by
  constructor
  · obtain ⟨n, hn⟩ := hgap
    have hn1 : 1 ≤ n := by
      have : (0 : ℚ) < (n : ℚ) := by rw [← hn]; linarith
      have : (0 : ℤ) < n := by exact_mod_cast this
      omega
    have h2 : max - min + 1 = ((1 - n : ℤ) : ℚ) := by push_cast; linarith
    have hb := floor_unit_mul_nonpos (1 - n) r (by omega) h0 h1
    unfold getRandomNumber
    rw [h2]
    set x := ⌊r * ((1 - n : ℤ) : ℚ)⌋ with hxdef
    have hx1 : ((1 - n : ℤ) : ℚ) ≤ (x : ℚ) := by exact_mod_cast hb.1
    push_cast at hx1
    have hx0 : (x : ℚ) ≤ 0 := by exact_mod_cast hb.2
    constructor
    · linarith
    · linarith
  · rfl

/-- C8 counterexample: with entered bounds `min = 5 > 3 = max` the builder
succeeds, producing a NumericRange config instead of failing with
`InvalidRange`, and generation on that config yields `4` at draw `1/2`. -/
theorem c8_counterexample :
    (3 : ℚ) < 5
    ∧ configureColumn "c" [] "1" ⟨true, 5, 3, "", "", 10, "ID-", 1, 1⟩
        = ⟨"c", GenCfg.numericRange 5 3⟩
    ∧ getRandomNumber 5 3 (1/2) = 4 := by
  refine ⟨by norm_num, rfl, ?_⟩
  unfold getRandomNumber
  have h2 : (1/2 : ℚ) * (3 - 5 + 1) = -(1/2) := by norm_num
  rw [h2]
  have : ⌊(-(1/2) : ℚ)⌋ = -1 := by
    rw [Int.floor_eq_iff]
    norm_num
  rw [this]
  norm_num

theorem c8_witness :
    (3 : ℚ) + 1 ≤ getRandomNumber 5 3 (1/2) ∧ getRandomNumber 5 3 (1/2) ≤ 5 :=
  (c8_invalidRange 5 3 (1/2) ⟨2, by norm_num⟩ (by norm_num) (by norm_num) (by norm_num)).1

/-- Reading a list back element by element over the indices of its range
reproduces the list. -/
lemma mapGetD_range {α : Type} (l : List α) (d : α) :
    (List.range l.length).map (fun k => l.getD k d) = l := by
  induction l with
  | nil => rfl
  | cons a t ih =>
    simp only [List.length_cons, List.range_succ_eq_map, List.map_cons, List.map_map,
      List.getD_cons_zero, Function.comp_def, List.getD_cons_succ]
    rw [ih]

/-- C2: a CyclicList config over a non-empty list generates
`values[i mod L]` at row `i` for every random stream; reading rows
`0 .. 2L-1` yields the list twice back to back; and synthesizing 5 rows
over `["x","y"]` yields the column `["x","y","x","y","x"]` in row order. -/
theorem c2_cyclicList (l : List JsValue) (hne : l ≠ []) (i : ℕ) (rng : ℕ → ℚ) :
    generateCell (GenCfg.cyclicList l) i rng
      = some (l.getD (i % l.length) JsValue.undef)
    ∧ (List.range (2 * l.length)).map (fun k => l.getD (k % l.length) JsValue.undef)
        = l ++ l
    ∧ (∀ rngs : ℕ → ℕ → ℕ → ℚ,
        generateTestData [⟨"c", GenCfg.cyclicList [JsValue.str "x", JsValue.str "y"]⟩] 5 rngs
        = [[("c", JsValue.str "x")], [("c", JsValue.str "y")], [("c", JsValue.str "x")],
           [("c", JsValue.str "y")], [("c", JsValue.str "x")]]) := by
  have hlen : l.length ≠ 0 := fun hz => hne (List.length_eq_zero.mp hz)
  refine ⟨?_, ?_, ?_⟩
  · simp [generateCell, hlen]
  · rw [two_mul, List.range_add, List.map_append, List.map_map]
    congr 1
    · have hcg : ∀ k ∈ List.range l.length,
          l.getD (k % l.length) JsValue.undef = l.getD k JsValue.undef := by
        intro k hk
        rw [Nat.mod_eq_of_lt (List.mem_range.mp hk)]
      rw [List.map_congr_left hcg, mapGetD_range]
    · have hcg : ∀ k ∈ List.range l.length,
          ((fun k => l.getD (k % l.length) JsValue.undef) ∘ (l.length + ·)) k
            = l.getD k JsValue.undef := by
        intro k hk
        simp only [Function.comp_def]
        rw [Nat.add_mod_left, Nat.mod_eq_of_lt (List.mem_range.mp hk)]
      rw [List.map_congr_left hcg, mapGetD_range]
  · intro rngs
    rfl

theorem c2_witness :
    generateCell (GenCfg.cyclicList [JsValue.str "x", JsValue.str "y"]) 3 (fun _ => 0)
      = some (List.getD [JsValue.str "x", JsValue.str "y"]
          (3 % List.length [JsValue.str "x", JsValue.str "y"]) JsValue.undef) :=
  (c2_cyclicList [JsValue.str "x", JsValue.str "y"] (by decide) 3 (fun _ => 0)).1

/-- An in-range `getD` returns an element of the list. -/
lemma getD_mem_of_lt {α : Type} (l : List α) (n : ℕ) (d : α) (h : n < l.length) :
    l.getD n d ∈ l := by
  rw [List.getD_eq_getElem l d h]
  exact List.getElem_mem h

/-- The loop of `getRandomString` appends one alphabet character per
iteration when every draw is in `[0, 1)`. -/
lemma randomChars_spec (rng : ℕ → ℚ) (h : ∀ i, 0 ≤ rng i ∧ rng i < 1) (n : ℕ) :
    (randomChars rng n).length = n ∧ ∀ c ∈ randomChars rng n, c ∈ chars.toList := by
  induction n with
  | zero =>
    refine ⟨rfl, ?_⟩
    intro c hc
    cases hc
  | succ n ih =>
    have hclen : chars.length = 62 := rfl
    have hctl : chars.toList.length = 62 := rfl
    have hidx : 0 ≤ ⌊rng n * (chars.length : ℚ)⌋
        ∧ ⌊rng n * (chars.length : ℚ)⌋ ≤ 62 - 1 := by
      have h62 : (chars.length : ℚ) = ((62 : ℤ) : ℚ) := by rw [hclen]; norm_num
      rw [h62]
      exact floor_unit_mul_pos 62 (rng n) (by norm_num) (h n).1 (h n).2
    have hsing : jsCharAtList chars ⌊rng n * (chars.length : ℚ)⌋
        = [chars.toList.getD (⌊rng n * (chars.length : ℚ)⌋).toNat 'A'] := by
      unfold jsCharAtList
      rw [if_pos]
      exact ⟨hidx.1, by omega⟩
    have hlt : (⌊rng n * (chars.length : ℚ)⌋).toNat < chars.toList.length := by omega
    constructor
    · simp only [randomChars, List.length_append, ih.1, hsing]
      rfl
    · intro c hc
      simp only [randomChars, hsing] at hc
      rcases List.mem_append.mp hc with h1 | h1
      · exact ih.2 c h1
      · rw [List.mem_singleton.mp h1]
        exact getD_mem_of_lt _ _ _ hlt

/-- C4: with every draw in `[0, 1)`, `getRandomString N` returns a string
of exactly `N` characters, each from the 62-symbol alphanumeric alphabet;
with `N = 0` it returns the empty string; and the prefixed variant returns
the literal prefix concatenated with such a random string. -/
theorem c4_randomString (N : ℕ) (p : String) (rng : ℕ → ℚ)
    (h : ∀ i, 0 ≤ rng i ∧ rng i < 1) :
    (getRandomString N rng).length = N
    ∧ ((getRandomString N rng).toList.all (fun c => chars.toList.contains c)) = true
    ∧ getRandomString 0 rng = ""
    ∧ getRandomStringWithPref p N rng = p ++ getRandomString N rng := by
  have hs := randomChars_spec rng h N
  refine ⟨?_, ?_, rfl, rfl⟩
  · exact hs.1
  · rw [List.all_eq_true]
    intro c hc
    exact List.elem_eq_true_of_mem (hs.2 c hc)

theorem c4_witness :
    (getRandomString 3 (fun _ => 0)).length = 3
    ∧ ((getRandomString 3 (fun _ => 0)).toList.all (fun c => chars.toList.contains c)) = true
    ∧ getRandomString 0 (fun _ => 0) = ""
    ∧ getRandomStringWithPref "ID-" 3 (fun _ => 0) = "ID-" ++ getRandomString 3 (fun _ => 0) :=
  c4_randomString 3 "ID-" (fun _ => 0) (fun _ => ⟨le_refl 0, by norm_num⟩)

/-- Elements produced by `setDedupAux` come from the input and avoid the
already-seen accumulator. -/
lemma setDedupAux_mem {α : Type} [DecidableEq α] :
    ∀ (l seen : List α) (x : α), x ∈ setDedupAux seen l → x ∈ l ∧ x ∉ seen := by
  intro l
  induction l with
  | nil =>
    intro seen x hx
    cases hx
  | cons a rest ih =>
    intro seen x hx
    by_cases ha : a ∈ seen
    · simp only [setDedupAux, if_pos ha] at hx
      have h1 := ih seen x hx
      exact ⟨List.mem_cons_of_mem a h1.1, h1.2⟩
    · simp only [setDedupAux, if_neg ha] at hx
      rcases List.mem_cons.mp hx with h1 | h1
      · rw [h1]
        exact ⟨List.mem_cons_self a rest, ha⟩
      · have h2 := ih (a :: seen) x h1
        exact ⟨List.mem_cons_of_mem a h2.1,
          fun hseen => h2.2 (List.mem_cons_of_mem a hseen)⟩

/-- The output of `setDedupAux` has no duplicates. -/
lemma setDedupAux_nodup {α : Type} [DecidableEq α] :
    ∀ (l seen : List α), (setDedupAux seen l).Nodup := by
  intro l
  induction l with
  | nil =>
    intro seen
    exact List.nodup_nil
  | cons a rest ih =>
    intro seen
    by_cases ha : a ∈ seen
    · simp only [setDedupAux, if_pos ha]
      exact ih seen
    · simp only [setDedupAux, if_neg ha]
      rw [List.nodup_cons]
      refine ⟨?_, ih (a :: seen)⟩
      intro hmem
      exact (setDedupAux_mem rest (a :: seen) a hmem).2 (List.mem_cons_self a seen)

/-- Filtering commutes with first-occurrence deduplication. -/
lemma setDedupAux_filter {α : Type} [DecidableEq α] (p : α → Bool) :
    ∀ (l seen : List α),
      (setDedupAux seen l).filter p = setDedupAux (seen.filter p) (l.filter p) := by
  intro l
  induction l with
  | nil =>
    intro seen
    rfl
  | cons a rest ih =>
    intro seen
    by_cases ha : a ∈ seen
    · by_cases hpa : p a = true
      · have haf : a ∈ seen.filter p := List.mem_filter.mpr ⟨ha, hpa⟩
        calc (setDedupAux seen (a :: rest)).filter p
            = (setDedupAux seen rest).filter p := by
              simp only [setDedupAux, if_pos ha]
          _ = setDedupAux (seen.filter p) (rest.filter p) := ih seen
          _ = setDedupAux (seen.filter p) ((a :: rest).filter p) := by
              rw [List.filter_cons_of_pos hpa]
              simp only [setDedupAux, if_pos haf]
      · calc (setDedupAux seen (a :: rest)).filter p
            = (setDedupAux seen rest).filter p := by
              simp only [setDedupAux, if_pos ha]
          _ = setDedupAux (seen.filter p) (rest.filter p) := ih seen
          _ = setDedupAux (seen.filter p) ((a :: rest).filter p) := by
              rw [List.filter_cons_of_neg hpa]
    · by_cases hpa : p a = true
      · have haf : a ∉ seen.filter p := fun hmem => ha (List.mem_filter.mp hmem).1
        calc (setDedupAux seen (a :: rest)).filter p
            = (a :: setDedupAux (a :: seen) rest).filter p := by
              simp only [setDedupAux, if_neg ha]
          _ = a :: (setDedupAux (a :: seen) rest).filter p :=
              List.filter_cons_of_pos hpa
          _ = a :: setDedupAux ((a :: seen).filter p) (rest.filter p) := by
              rw [ih (a :: seen)]
          _ = a :: setDedupAux (a :: seen.filter p) (rest.filter p) := by
              rw [List.filter_cons_of_pos hpa]
          _ = setDedupAux (seen.filter p) ((a :: rest).filter p) := by
              rw [List.filter_cons_of_pos hpa]
              simp only [setDedupAux, if_neg haf]
      · calc (setDedupAux seen (a :: rest)).filter p
            = (a :: setDedupAux (a :: seen) rest).filter p := by
              simp only [setDedupAux, if_neg ha]
          _ = (setDedupAux (a :: seen) rest).filter p :=
              List.filter_cons_of_neg hpa
          _ = setDedupAux ((a :: seen).filter p) (rest.filter p) := ih (a :: seen)
          _ = setDedupAux (seen.filter p) (rest.filter p) := by
              rw [List.filter_cons_of_neg hpa]
          _ = setDedupAux (seen.filter p) ((a :: rest).filter p) := by
              rw [List.filter_cons_of_neg hpa]

/-- Deduplication commutes with wrapping every element in `some`. -/
lemma setDedupAux_map_some :
    ∀ (l seen : List String),
      setDedupAux (seen.map some) (l.map some) = (setDedupAux seen l).map some := by
  intro l
  induction l with
  | nil =>
    intro seen
    rfl
  | cons a rest ih =>
    intro seen
    by_cases ha : a ∈ seen
    · have ha2 : some a ∈ seen.map some := List.mem_map_of_mem some ha
      simp only [List.map_cons, setDedupAux, if_pos ha, if_pos ha2]
      exact ih seen
    · have ha2 : some a ∉ seen.map some := by
        intro hmem
        rcases List.mem_map.mp hmem with ⟨b, hb, hba⟩
        have hb2 : b = a := Option.some.inj hba
        exact ha (hb2 ▸ hb)
      simp only [List.map_cons, setDedupAux, if_neg ha, if_neg ha2]
      rw [← List.map_cons, ih (a :: seen)]

/-- Unwrapping a list of wrapped elements is the identity. -/
lemma reduceOption_map_some {α : Type} (l : List α) :
    (l.map some).reduceOption = l := by
  induction l with
  | nil => rfl
  | cons a t ih => simp [List.reduceOption_cons_of_some, ih]

/-- The usability predicate on a present value reduces to the non-empty
check on the underlying string. -/
lemma usable_some (s : String) :
    (!(some s == (none : Option String)) && !(some s == some "")) = !(s == "") := rfl

/-- Keeping the usable entries of an option-valued column is the same as
unwrapping the present entries and keeping the non-empty ones. -/
lemma filter_usable_eq_map_some :
    ∀ vals : List (Option String),
      vals.filter (fun v => !(v == none) && !(v == some ""))
        = ((vals.reduceOption).filter (fun s => !(s == ""))).map some := by
  intro vals
  induction vals with
  | nil => rfl
  | cons v t ih =>
    cases v with
    | none =>
      simp only [List.reduceOption_cons_of_none]
      rw [List.filter_cons_of_neg (by decide)]
      exact ih
    | some s =>
      simp only [List.reduceOption_cons_of_some, List.filter_cons, usable_some,
        apply_ite (List.map some), List.map_cons]
      rw [ih]

/-- The source's dedup-then-filter pipeline equals the spec's
filter-then-dedup description. -/
lemma getUnique_eq_spec (records : List (List (String × String))) (header : String) :
    getUniqueValuesFromColumn records header = extractPoolSpec records header := by
  have key : ∀ vals : List (Option String),
      ((setDedupAux [] vals).filter (fun v => !(v == none) && !(v == some ""))).reduceOption
        = setDedupAux [] ((vals.reduceOption).filter (fun s => !(s == ""))) := by
    intro vals
    have h1 : (setDedupAux [] vals).filter (fun v => !(v == none) && !(v == some ""))
        = setDedupAux [] (vals.filter (fun v => !(v == none) && !(v == some ""))) := by
      rw [setDedupAux_filter]
      rfl
    have h2 : setDedupAux ([] : List (Option String))
        (((vals.reduceOption).filter (fun s => !(s == ""))).map some)
        = (setDedupAux [] ((vals.reduceOption).filter (fun s => !(s == "")))).map some := by
      have h3 := setDedupAux_map_some ((vals.reduceOption).filter (fun s => !(s == ""))) []
      simpa using h3
    rw [h1, filter_usable_eq_map_some vals, h2, reduceOption_map_some]
  exact key (records.map (fun record => jsGet record header))

/-- C5: the value-pool extractor equals the spec's description (unusable
entries removed, then first-occurrence deduplication), never contains
duplicates or empty strings, returns `["b","a"]` on the records
`[{c:"b"},{c:"a"},{c:"b"},{c:""},{c:"a"}]`, and returns the empty sequence
when the column has no usable values. -/
theorem c5_extractPool (records : List (List (String × String))) (header : String) :
    getUniqueValuesFromColumn records header = extractPoolSpec records header
    ∧ (getUniqueValuesFromColumn records header).Nodup
    ∧ ((getUniqueValuesFromColumn records header).all (fun s => !(s == ""))) = true
    ∧ getUniqueValuesFromColumn
        [[("c", "b")], [("c", "a")], [("c", "b")], [("c", "")], [("c", "a")]] "c"
        = ["b", "a"]
    ∧ getUniqueValuesFromColumn [[("c", "")], [("d", "z")]] "c" = [] := by
  refine ⟨getUnique_eq_spec records header, ?_, ?_, by decide, by decide⟩
  · rw [getUnique_eq_spec records header]
    unfold extractPoolSpec setDedup
    exact setDedupAux_nodup _ _
  · rw [List.all_eq_true]
    intro s hs
    rw [getUnique_eq_spec records header] at hs
    unfold extractPoolSpec setDedup at hs
    have h1 := (setDedupAux_mem _ _ _ hs).1
    exact (List.mem_filter.mp h1).2

/-- C6: building a NumericFromList config from source values filters the
column's pool to the entries `Number()` parses, dropping the entries that
parse to `NaN`: the pool `["1","2","abc","3"]` resolves to `[1, 2, 3]`;
when no pool entry parses (pool `["abc"]`), the builder recovers by taking
the caller-supplied custom comma-separated list instead of failing hard,
e.g. `"7,8"` resolves to `[7, 8]`; and in general the resolved source pool
is exactly the pool filtered through the `Number()` parse. -/
theorem c6_numericFromList (custom : String) :
    configureColumn "c" [[("c", "1")], [("c", "2")], [("c", "abc")], [("c", "3")]] "2"
        ⟨true, 0, 100, custom, "", 10, "ID-", 1, 1⟩
      = ⟨"c", GenCfg.numericFromList [JsValue.num 1, JsValue.num 2, JsValue.num 3]⟩
    ∧ configureColumn "c" [[("c", "abc")]] "2" ⟨true, 0, 100, custom, "", 10, "ID-", 1, 1⟩
      = ⟨"c", GenCfg.numericFromList (customNumericList custom)⟩
    ∧ customNumericList "7,8" = [JsValue.num 7, JsValue.num 8]
    ∧ (∀ pool : List String, (pool.map jsNumber).reduceOption = pool.filterMap jsNumber)
    ∧ ((["1", "2", "abc", "3"].map jsNumber).reduceOption = [(1 : ℚ), 2, 3]) := by
  refine ⟨rfl, rfl, by decide, ?_, by decide⟩
  intro pool
  simp [List.reduceOption, List.filterMap_map]

/-- Lists produced by `splitCommasAux` are never empty. -/
lemma splitCommasAux_ne_nil : ∀ (l acc : List Char), splitCommasAux l acc ≠ [] := by
  intro l
  induction l with
  | nil =>
    intro acc h
    exact List.cons_ne_nil _ _ h
  | cons c rest ih =>
    intro acc
    by_cases hc : c = ','
    · simp only [splitCommasAux, if_pos hc]
      exact List.cons_ne_nil _ _
    · simp only [splitCommasAux, if_neg hc]
      exact ih (c :: acc)

/-- A custom numeric list resolved from the prompt is never empty. -/
lemma customNumericList_ne_nil (input : String) : customNumericList input ≠ [] := by
  unfold customNumericList splitCommas
  intro h
  rw [List.map_eq_nil_iff] at h
  exact splitCommasAux_ne_nil _ _ h

/-- A custom string list resolved from the prompt is never empty. -/
lemma customAlphaList_ne_nil (input : String) : customAlphaList input ≠ [] := by
  unfold customAlphaList splitCommas
  intro h
  rw [List.map_eq_nil_iff, List.map_eq_nil_iff] at h
  exact splitCommasAux_ne_nil _ _ h

/-- C7 (amended): the builder performs no empty-list validation and raises
no `EmptyList` error; instead every list it resolves is non-empty by
construction — a source pool is used only when non-empty, and the custom
comma-separated input always splits into at least one entry (possibly a
`NaN` or an empty string). An empty list that reaches the generation step
by other means is not rejected there either: the switch processes it and
indexing the empty list yields the JavaScript `undefined` value. -/
theorem c7_emptyList (header : String) (records : List (List (String × String)))
    (genType : String) (ans : Answers) (l : List JsValue) (i : ℕ) (rng : ℕ → ℚ) :
    (listOf (configureColumn header records genType ans).cfg = some l → 0 < l.length)
    ∧ generateCell (GenCfg.alphaFromList []) i rng = some JsValue.undef
    ∧ generateCell (GenCfg.cyclicList []) i rng = some JsValue.undef := by
  refine ⟨?_, ?_, rfl⟩
  · intro hl
    simp only [configureColumn] at hl
    split at hl
    · exact Option.noConfusion hl
    · split at hl
      · split at hl
        · simp only [listOf, Option.some.injEq] at hl
          rw [← hl]
          exact List.length_pos.mpr (customNumericList_ne_nil _)
        · rename_i hlen
          simp only [listOf, Option.some.injEq] at hl
          rw [← hl, List.length_map]
          omega
      · simp only [listOf, Option.some.injEq] at hl
        rw [← hl]
        exact List.length_pos.mpr (customNumericList_ne_nil _)
    · split at hl
      · simp only [listOf, Option.some.injEq] at hl
        rw [← hl]
        exact List.length_pos.mpr (customAlphaList_ne_nil _)
      · rename_i hlen
        simp only [listOf, Option.some.injEq] at hl
        rw [← hl, List.length_map]
        omega
    · split at hl
      · split at hl
        · simp only [listOf, Option.some.injEq] at hl
          rw [← hl]
          exact List.length_pos.mpr (customAlphaList_ne_nil _)
        · rename_i hlen
          simp only [listOf, Option.some.injEq] at hl
          rw [← hl, List.length_map]
          omega
      · simp only [listOf, Option.some.injEq] at hl
        rw [← hl]
        exact List.length_pos.mpr (customAlphaList_ne_nil _)
    · split at hl
      · split at hl
        · simp only [listOf, Option.some.injEq] at hl
          rw [← hl]
          exact List.length_pos.mpr (customAlphaList_ne_nil _)
        · rename_i hlen
          simp only [listOf, Option.some.injEq] at hl
          rw [← hl, List.length_map]
          omega
      · simp only [listOf, Option.some.injEq] at hl
        rw [← hl]
        exact List.length_pos.mpr (customAlphaList_ne_nil _)
    · exact Option.noConfusion hl
    · exact Option.noConfusion hl
    · exact Option.noConfusion hl
    · exact Option.noConfusion hl
  · show some (getRandomFromList [] (rng 0)) = some JsValue.undef
    unfold getRandomFromList jsIndexInt
    rw [if_neg]
    intro hcon
    exact Nat.not_lt_zero _ hcon.2

/-- C7 counterexample: no `EmptyList` rejection exists anywhere in the
code: a custom entry consisting of the empty input builds (without error) a
config whose list holds one empty string, and an empty list that does reach
the generation switch is processed rather than rejected, indexing to the
JavaScript `undefined` value. -/
theorem c7_counterexample :
    configureColumn "c" [] "3" ⟨false, 0, 100, "", "", 10, "ID-", 1, 1⟩
      = ⟨"c", GenCfg.alphaFromList [JsValue.str ""]⟩
    ∧ getRandomFromList [] 0 = JsValue.undef
    ∧ generateCell (GenCfg.cyclicList []) 0 (fun _ => 0) = some JsValue.undef := by
  refine ⟨by decide, ?_, rfl⟩
  unfold getRandomFromList jsIndexInt
  rw [if_neg]
  intro hcon
  exact Nat.not_lt_zero _ hcon.2

theorem c7_witness : 0 < List.length [JsValue.str ""] :=
  (c7_emptyList "c" [] "3" ⟨false, 0, 100, "", "", 10, "ID-", 1, 1⟩ [JsValue.str ""] 0
    (fun _ => 0)).1 (by decide)
